import Mathlib

/-!
Shallow embedding of the voxel-world generation core of this repository:
`src/perlin.js` (seeded 2D gradient noise with a gradient cache and a
sample-memoization cache) and `src/main.js` (heightmap synthesis over a
wrap-seamless coordinate transform, chunk meshing, chunk loading, and the
per-tick player update).  JavaScript numbers are modelled as real numbers;
integer-valued quantities (lattice coordinates, heights, chunk coordinates)
are modelled as integers.  The JavaScript `%` operator on numbers truncates
toward zero, so it is modelled by `Int.tmod` on integers and by an explicit
truncating fmod on reals.
-/

namespace VoxelWorld

/-- `WORLD_SIZE` constant from `src/main.js`. -/
def WORLD_SIZE : ℤ := 256

/-- `CHUNK_SIZE` constant from `src/main.js`. -/
def CHUNK_SIZE : ℤ := 16

/-- `RENDER_DISTANCE` constant from `src/main.js` (in chunks). -/
def RENDER_DISTANCE : ℤ := 6

/-- `MOVE_SPEED` constant from `src/main.js`. -/
def MOVE_SPEED : ℝ := 5

/-- `PLAYER_HEIGHT` constant from `src/main.js`. -/
noncomputable def PLAYER_HEIGHT : ℝ := 1.8

/-! ### PerlinNoise (src/perlin.js)

The class keeps two caches: `this.gradients` (keyed by the integer lattice
point) and `this.memory` (keyed by the exact real input pair).  The caches
are modelled as partial maps, and each cached computation also has a pure
(cache-free) counterpart used to state determinism.
-/

/-- The two memoization caches of a `PerlinNoise` instance
(`this.gradients` and `this.memory` in `src/perlin.js`). -/
structure NoiseState where
  gradients : ℤ × ℤ → Option (ℝ × ℝ)
  memory : ℝ × ℝ → Option ℝ

/-- The caches of a freshly constructed `PerlinNoise` (both empty objects). -/
def initState : NoiseState := ⟨fun _ => none, fun _ => none⟩

/-- Pure value of `randomGradient(ix, iy)` from `src/perlin.js`:
`random = Math.sin(ix * 12.9898 + iy * 78.233 + seed) * 43758.5453`,
`angle = (random - Math.floor(random)) * 2 * Math.PI`,
result `(Math.cos(angle), Math.sin(angle))`. -/
noncomputable def randomGradientP (seed : ℝ) (ix iy : ℤ) : ℝ × ℝ :=
  let random := Real.sin ((ix : ℝ) * 12.9898 + (iy : ℝ) * 78.233 + seed) * 43758.5453
  let angle := (random - (⌊random⌋ : ℝ)) * 2 * Real.pi
  (Real.cos angle, Real.sin angle)

/-- `randomGradient` from `src/perlin.js`, with the gradient cache: return
the cached vector when present, otherwise compute, store and return it. -/
noncomputable def randomGradient (seed : ℝ) (st : NoiseState) (ix iy : ℤ) :
    (ℝ × ℝ) × NoiseState :=
  match st.gradients (ix, iy) with
  | some g => (g, st)
  | none =>
    let g := randomGradientP seed ix iy
    (g, { st with gradients := Function.update st.gradients (ix, iy) (some g) })

/-- Pure value of `dotGridGradient(ix, iy, x, y)` from `src/perlin.js`:
dot product of the corner gradient with the offset `(x - ix, y - iy)`. -/
noncomputable def dotGridGradientP (seed : ℝ) (ix iy : ℤ) (x y : ℝ) : ℝ :=
  let g := randomGradientP seed ix iy
  (x - (ix : ℝ)) * g.1 + (y - (iy : ℝ)) * g.2

/-- `dotGridGradient` from `src/perlin.js`, threading the cache state. -/
noncomputable def dotGridGradient (seed : ℝ) (st : NoiseState) (ix iy : ℤ)
    (x y : ℝ) : ℝ × NoiseState :=
  let r := randomGradient seed st ix iy
  ((x - (ix : ℝ)) * r.1.1 + (y - (iy : ℝ)) * r.1.2, r.2)

/-- `interpolate(a0, a1, w)` from `src/perlin.js`:
`(a1 - a0) * (3.0 - w * 2.0) * w * w + a0`. -/
noncomputable def interpolate (a0 a1 w : ℝ) : ℝ :=
  (a1 - a0) * (3 - w * 2) * w * w + a0

/-- Pure value of `noise(x, y)` from `src/perlin.js`: bilinear smoothstep
blend of the four corner dot products of the surrounding lattice cell. -/
noncomputable def noiseP (seed : ℝ) (x y : ℝ) : ℝ :=
  let x0 := ⌊x⌋
  let x1 := x0 + 1
  let y0 := ⌊y⌋
  let y1 := y0 + 1
  let sx := x - (x0 : ℝ)
  let sy := y - (y0 : ℝ)
  let n0 := dotGridGradientP seed x0 y0 x y
  let n1 := dotGridGradientP seed x1 y0 x y
  let ix0 := interpolate n0 n1 sx
  let n2 := dotGridGradientP seed x0 y1 x y
  let n3 := dotGridGradientP seed x1 y1 x y
  let ix1 := interpolate n2 n3 sx
  interpolate ix0 ix1 sy

/-- `noise(x, y)` from `src/perlin.js`, with the `this.memory` memoization
cache and the gradient cache threaded through the four corner lookups. -/
noncomputable def noise (seed : ℝ) (st : NoiseState) (x y : ℝ) :
    ℝ × NoiseState :=
  match st.memory (x, y) with
  | some v => (v, st)
  | none =>
    let x0 := ⌊x⌋
    let x1 := x0 + 1
    let y0 := ⌊y⌋
    let y1 := y0 + 1
    let sx := x - (x0 : ℝ)
    let sy := y - (y0 : ℝ)
    let r0 := dotGridGradient seed st x0 y0 x y
    let r1 := dotGridGradient seed r0.2 x1 y0 x y
    let ix0 := interpolate r0.1 r1.1 sx
    let r2 := dotGridGradient seed r1.2 x0 y1 x y
    let r3 := dotGridGradient seed r2.2 x1 y1 x y
    let ix1 := interpolate r2.1 r3.1 sx
    let value := interpolate ix0 ix1 sy
    (value, { r3.2 with memory := Function.update r3.2.memory (x, y) (some value) })

/-- Pure octave accumulation loop of `octaveNoise` from `src/perlin.js`:
given the remaining iteration count and the current `frequency` and
`amplitude`, returns the accumulated `(total, maxValue)`. -/
noncomputable def octaveLoopP (seed x y persistence : ℝ) :
    ℕ → ℝ → ℝ → ℝ × ℝ
  | 0, _, _ => (0, 0)
  | n + 1, frequency, amplitude =>
    let v := noiseP seed (x * frequency) (y * frequency)
    let rest := octaveLoopP seed x y persistence n (frequency * 2) (amplitude * persistence)
    (v * amplitude + rest.1, amplitude + rest.2)

/-- Pure value of `octaveNoise(x, y, octaves, persistence)`:
`total / maxValue` for the loop started at `frequency = 1`, `amplitude = 1`. -/
noncomputable def octaveNoiseP (seed x y : ℝ) (octaves : ℕ) (persistence : ℝ) : ℝ :=
  let r := octaveLoopP seed x y persistence octaves 1 1
  r.1 / r.2

/-- Octave accumulation loop of `octaveNoise` with the cache state threaded
through the per-octave `noise` calls; returns `(total, maxValue, state)`. -/
noncomputable def octaveLoop (seed x y persistence : ℝ) :
    ℕ → ℝ → ℝ → NoiseState → ℝ × ℝ × NoiseState
  | 0, _, _, st => (0, 0, st)
  | n + 1, frequency, amplitude, st =>
    let r := noise seed st (x * frequency) (y * frequency)
    let rest := octaveLoop seed x y persistence n (frequency * 2) (amplitude * persistence) r.2
    (r.1 * amplitude + rest.1, amplitude + rest.2.1, rest.2.2)

/-- `octaveNoise(x, y, octaves, persistence)` from `src/perlin.js`, with the
cache state: the loop accumulates `total` and `maxValue` and the function
returns `total / maxValue`. -/
noncomputable def octaveNoise (seed : ℝ) (st : NoiseState) (x y : ℝ)
    (octaves : ℕ) (persistence : ℝ) : ℝ × NoiseState :=
  let r := octaveLoop seed x y persistence octaves 1 1 st
  (r.1 / r.2.1, r.2.2)

/-! ### Heightmap build (generateHeightMap in src/main.js) -/

/-- The height computed by the body of `generateHeightMap` in `src/main.js`
for (pre-wrap) world coordinates `(x, z)`: map each axis through the circle
embedding `Math.cos(w * 2 * Math.PI) / (2 * Math.PI)` (and `Math.sin` for
the second component), sample `octaveNoise((nx + 1) * 100, (ny + 1) * 100,
4, 0.5)` and map the result through `Math.floor((v + 1) * 10) + 5`.
The `z`-derived components `nz`, `nw` are computed but not passed to the
noise call, exactly as in the source. -/
noncomputable def heightAtWorld (seed : ℝ) (x z : ℝ) : ℤ :=
  let wx := x / (WORLD_SIZE : ℝ)
  let wz := z / (WORLD_SIZE : ℝ)
  let nx := Real.cos (wx * 2 * Real.pi) / (2 * Real.pi)
  let ny := Real.sin (wx * 2 * Real.pi) / (2 * Real.pi)
  let nz := Real.cos (wz * 2 * Real.pi) / (2 * Real.pi)
  let nw := Real.sin (wz * 2 * Real.pi) / (2 * Real.pi)
  let noiseValue := octaveNoiseP seed ((nx + 1) * 100) ((ny + 1) * 100) 4 (1 / 2)
  ⌊(noiseValue + 1) * 10⌋ + 5

/-- The built heightmap as a map from `[z][x]` indices to heights:
`heightMap[z][x]` of `src/main.js` equals `heightMapN seed z x`
for `0 ≤ z, x < WORLD_SIZE`. -/
noncomputable def heightMapN (seed : ℝ) (z x : ℤ) : ℤ :=
  heightAtWorld seed (x : ℝ) (z : ℝ)

/-! ### Integer wrapping and chunk meshing (src/main.js) -/

/-- The integer wrap `((n % size) + size) % size` from `src/main.js`, with
JavaScript truncating `%` modelled by `Int.tmod`. -/
def jsWrap (n size : ℤ) : ℤ := ((n.tmod size) + size).tmod size

/-- The heightmap value read by `generateChunk` for local column `(x, z)`
of chunk `(cx, cz)`: `heightMap[wrappedZ][wrappedX]` where
`wrappedX = ((worldX % WORLD_SIZE) + WORLD_SIZE) % WORLD_SIZE` and
`worldX = chunkX * CHUNK_SIZE + x` (same for `z`). -/
def chunkHeight (hm : ℤ → ℤ → ℤ) (cx cz : ℤ) (x z : ℕ) : ℤ :=
  hm (jsWrap (cz * CHUNK_SIZE + (z : ℤ)) WORLD_SIZE)
     (jsWrap (cx * CHUNK_SIZE + (x : ℤ)) WORLD_SIZE)

/-- One mesh vertex: position, normal and per-vertex color, as pushed into
the `positions` / `normals` / `colors` arrays of `generateChunk`.
Positions and normals are integer-valued (VOXEL_SIZE = 1); colors are the
`THREE.Color` components of the hex colors, as rationals. -/
structure Vert where
  pos : ℤ × ℤ × ℤ
  norm : ℤ × ℤ × ℤ
  color : ℚ × ℚ × ℚ
deriving DecidableEq, Repr

/-- Grass color `0x3a7d3a` componentwise over 255. -/
def grassColor : ℚ × ℚ × ℚ := (58 / 255, 125 / 255, 58 / 255)

/-- Dirt color `0x8b7355` componentwise over 255. -/
def dirtColor : ℚ × ℚ × ℚ := (139 / 255, 115 / 255, 85 / 255)

/-- Stone color `0x808080` componentwise over 255. -/
def stoneColor : ℚ × ℚ × ℚ := (128 / 255, 128 / 255, 128 / 255)

/-- `addFace` from `src/main.js`: pushes the two triangles
`v0 v1 v2` and `v0 v2 v3` of a quad, all six vertices sharing the given
normal and the color dimmed to 80% brightness. -/
def addFace (v0 v1 v2 v3 : ℤ × ℤ × ℤ) (n : ℤ × ℤ × ℤ) (c : ℚ × ℚ × ℚ) :
    List Vert :=
  let dc : ℚ × ℚ × ℚ := (c.1 * 0.8, c.2.1 * 0.8, c.2.2 * 0.8)
  [⟨v0, n, dc⟩, ⟨v1, n, dc⟩, ⟨v2, n, dc⟩, ⟨v0, n, dc⟩, ⟨v2, n, dc⟩, ⟨v3, n, dc⟩]

/-- `addVoxel` from `src/main.js` for the voxel at `(x, y, z)` in a column
of height `height`: always pushes the 6 top-face vertices (normal
`(0, 1, 0)`, color by depth tier), and, only when `y == height - 1`, the
four side quads (front, back, left, right) via `addFace`. -/
def addVoxel (x y z height : ℤ) : List Vert :=
  let color :=
    if y = height - 1 then grassColor
    else if y > height - 4 then dirtColor
    else stoneColor
  let top : List Vert :=
    [⟨(x, y + 1, z), (0, 1, 0), color⟩,
     ⟨(x + 1, y + 1, z), (0, 1, 0), color⟩,
     ⟨(x + 1, y + 1, z + 1), (0, 1, 0), color⟩,
     ⟨(x, y + 1, z), (0, 1, 0), color⟩,
     ⟨(x + 1, y + 1, z + 1), (0, 1, 0), color⟩,
     ⟨(x, y + 1, z + 1), (0, 1, 0), color⟩]
  top ++
    (if y = height - 1 then
      addFace (x, y, z + 1) (x + 1, y, z + 1) (x + 1, y + 1, z + 1) (x, y + 1, z + 1) (0, 0, 1) color ++
      addFace (x + 1, y, z) (x, y, z) (x, y + 1, z) (x + 1, y + 1, z) (0, 0, -1) color ++
      addFace (x, y, z) (x, y, z + 1) (x, y + 1, z + 1) (x, y + 1, z) (-1, 0, 0) color ++
      addFace (x + 1, y, z + 1) (x + 1, y, z) (x + 1, y + 1, z) (x + 1, y + 1, z + 1) (1, 0, 0) color
    else [])

/-- Concatenation of the lists produced for each element, in order
(the vertex-array pushes of nested `for` loops). -/
def concatMap (f : α → List β) : List α → List β
  | [] => []
  | a :: l => f a ++ concatMap f l

/-- The voxel stack of one column of `generateChunk`: for every
`y in [0, height)`, the vertices pushed by `addVoxel(worldX, y, worldZ,
height)`. -/
def columnMesh (hm : ℤ → ℤ → ℤ) (cx cz : ℤ) (x z : ℕ) : List Vert :=
  concatMap
    (fun y : ℕ => addVoxel (cx * CHUNK_SIZE + (x : ℤ)) (y : ℤ) (cz * CHUNK_SIZE + (z : ℤ))
      (chunkHeight hm cx cz x z))
    (List.range (chunkHeight hm cx cz x z).toNat)

/-- The vertex list built by `generateChunk(chunkX, chunkZ)` in
`src/main.js`: `z` outer loop, `x` inner loop over the 16×16 footprint. -/
def generateChunk (hm : ℤ → ℤ → ℤ) (cx cz : ℤ) : List Vert :=
  concatMap (fun z => concatMap (fun x => columnMesh hm cx cz x z)
    (List.range CHUNK_SIZE.toNat)) (List.range CHUNK_SIZE.toNat)

/-- Number of top-face vertices of a mesh (normal `(0, 1, 0)`). -/
def countTop (l : List Vert) : ℕ :=
  l.countP (fun v => decide (v.norm = (0, 1, 0)))

/-- Number of side-face vertices of a mesh (normal other than `(0, 1, 0)`). -/
def countSide (l : List Vert) : ℕ :=
  l.countP (fun v => decide (v.norm ≠ (0, 1, 0)))

/-! ### Chunk loading (updateChunks in src/main.js) -/

/-- The chunk table `this.chunks`: a map from chunk keys `(cx, cz)` (the
string key template of the source is injective on integer pairs) to the
stored mesh. -/
def Chunks : Type := ℤ × ℤ → Option (List Vert)

/-- The body of the double loop of `updateChunks` for one candidate chunk
key: skip when the key is present; otherwise run `generateChunk`, which
stores the mesh only when it produced at least one vertex
(`positions.length > 0`). -/
def chunkStep (hm : ℤ → ℤ → ℤ) (chunks : Chunks) (c : ℤ × ℤ) : Chunks :=
  if (chunks c).isSome then chunks
  else
    let mesh := generateChunk hm c.1 c.2
    if mesh.length > 0 then Function.update chunks c (some mesh) else chunks

/-- The candidate chunk keys visited by `updateChunks`: all `(cx, cz)` with
both coordinates within `RENDER_DISTANCE` of the player's chunk, `cz` in
the outer loop, `cx` in the inner loop. -/
def windowList (pcx pcz : ℤ) : List (ℤ × ℤ) :=
  concatMap (fun i : ℕ => (List.range 13).map
      (fun j : ℕ => (pcx - RENDER_DISTANCE + (j : ℤ), pcz - RENDER_DISTANCE + (i : ℤ))))
    (List.range 13)

/-- `updateChunks` from `src/main.js`: computes the player's chunk
coordinates with `Math.floor(pos / CHUNK_SIZE)` and visits every candidate
key within render distance. -/
noncomputable def updateChunks (hm : ℤ → ℤ → ℤ) (chunks : Chunks) (px pz : ℝ) :
    Chunks :=
  List.foldl (chunkStep hm) chunks
    (windowList ⌊px / (CHUNK_SIZE : ℝ)⌋ ⌊pz / (CHUNK_SIZE : ℝ)⌋)

/-! ### Player update (updatePlayer in src/main.js) -/

/-- JavaScript truncation toward zero of a real number. -/
noncomputable def jsTrunc (r : ℝ) : ℤ := if 0 ≤ r then ⌊r⌋ else ⌈r⌉

/-- JavaScript `%` on numbers: `a - n * trunc(a / n)` (sign of dividend). -/
noncomputable def jsFmod (a n : ℝ) : ℝ := a - n * (jsTrunc (a / n) : ℝ)

/-- The coordinate wrap `((p % WORLD_SIZE) + WORLD_SIZE) % WORLD_SIZE`
applied to the player's x and z in `updatePlayer`. -/
noncomputable def wrapCoord (a : ℝ) : ℝ :=
  jsFmod (jsFmod a (WORLD_SIZE : ℝ) + (WORLD_SIZE : ℝ)) (WORLD_SIZE : ℝ)

/-- Player state: position components and horizontal rotation. -/
structure Player where
  px : ℝ
  py : ℝ
  pz : ℝ
  rot : ℝ

/-- Per-tick input snapshot: pointer-lock flag, accumulated mouse delta and
the four held movement keys. -/
structure InputState where
  locked : Bool
  mouseX : ℝ
  keyW : Bool
  keyS : Bool
  keyA : Bool
  keyD : Bool

/-- Invariant of the gradient cache: every stored entry equals the pure
recomputation from `(ix, iy, seed)`. -/
def GradOK (seed : ℝ) (st : NoiseState) : Prop :=
  ∀ ix iy g, st.gradients (ix, iy) = some g → g = randomGradientP seed ix iy

/-- Invariant of the sample-memoization cache: every stored entry equals
the pure recomputation at its key. -/
def MemOK (seed : ℝ) (st : NoiseState) : Prop :=
  ∀ x y v, st.memory (x, y) = some v → v = noiseP seed x y

/-- A chunk key is settled for a chunk table: either the key is present or
its mesh is empty (in which case `generateChunk` never stores it). -/
def chunkDone (hm : ℤ → ℤ → ℤ) (m : Chunks) (c : ℤ × ℤ) : Prop :=
  (m c).isSome = true ∨ generateChunk hm c.1 c.2 = []

/-- The movement intent vector `(x, z)` built from the held keys in
`updatePlayer`: `w` adds `(0, -1)`, `s` adds `(0, 1)`, `a` adds `(-1, 0)`,
`d` adds `(1, 0)`. -/
def moveVector (w s a d : Bool) : ℝ × ℝ :=
  ((if a then -1 else 0) + (if d then 1 else 0),
   (if w then -1 else 0) + (if s then 1 else 0))

/-- `THREE.Vector3.length()` of a planar vector. -/
noncomputable def vlen (v : ℝ × ℝ) : ℝ := Real.sqrt (v.1 ^ 2 + v.2 ^ 2)

/-- The horizontal displacement applied to the player position in one tick
of `updatePlayer`: when any key is held the intent vector is normalized,
rotated by the heading and scaled by `MOVE_SPEED * deltaTime`; otherwise
the position is unchanged. -/
noncomputable def displacement (w s a d : Bool) (rot dt : ℝ) : ℝ × ℝ :=
  let mv := moveVector w s a d
  if vlen mv > 0 then
    let nx := mv.1 / vlen mv
    let nz := mv.2 / vlen mv
    let rx := nx * Real.cos rot - nz * Real.sin rot
    let rz := nx * Real.sin rot + nz * Real.cos rot
    (rx * MOVE_SPEED * dt, rz * MOVE_SPEED * dt)
  else (0, 0)

/-- `updatePlayer(deltaTime)` from `src/main.js`: mouse-look rotation when
pointer-locked, normalized key movement rotated by the heading, wrap of x/z
into world bounds, then the ground clamp
`y = heightMap[floor(z) % WORLD_SIZE][floor(x) % WORLD_SIZE] + PLAYER_HEIGHT / 2`. -/
noncomputable def updatePlayer (hm : ℤ → ℤ → ℤ) (p : Player) (inp : InputState)
    (dt : ℝ) : Player :=
  let rot1 := if inp.locked then p.rot - inp.mouseX * 0.002 else p.rot
  let d := displacement inp.keyW inp.keyS inp.keyA inp.keyD rot1 dt
  let x2 := wrapCoord (p.px + d.1)
  let z2 := wrapCoord (p.pz + d.2)
  let heightX := Int.tmod ⌊x2⌋ WORLD_SIZE
  let heightZ := Int.tmod ⌊z2⌋ WORLD_SIZE
  let terrainHeight := hm heightZ heightX
  { px := x2, py := (terrainHeight : ℝ) + PLAYER_HEIGHT / 2, pz := z2, rot := rot1 }

/-! ## Theorems -/

/-! ### Integer wrap -/

theorem tmod_gt_neg (a b : ℤ) (hb : 0 < b) : -b < a.tmod b := by
  match a with
  | Int.ofNat m =>
    have h := Int.tmod_nonneg b (show (0:ℤ) ≤ Int.ofNat m from Int.ofNat_nonneg m)
    linarith
  | Int.negSucc m =>
    obtain ⟨n, rfl⟩ := Int.eq_ofNat_of_zero_le hb.le
    have hn : 0 < n := by exact_mod_cast hb
    have h1 : (Int.negSucc m).tmod (n : ℤ) = -((Nat.succ m % n : ℕ) : ℤ) := rfl
    rw [h1]
    have h2 := Nat.mod_lt (Nat.succ m) hn
    omega

theorem jsWrap_eq_emod (n : ℤ) : jsWrap n 256 = n % 256 := by
  unfold jsWrap
  have h1 : -256 < n.tmod 256 := tmod_gt_neg n 256 (by norm_num)
  have h2 : (n.tmod 256 + 256).tmod 256 = (n.tmod 256 + 256) % 256 :=
    Int.tmod_eq_emod (by linarith) (by norm_num)
  rw [h2]
  have h3 : n.tmod 256 + 256 = n.tmod 256 + 256 * 1 := by ring
  rw [h3, Int.add_mul_emod_self_left]
  have h4 : n.tmod 256 = n + 256 * (-(n.tdiv 256)) := by
    rw [Int.tmod_def]; ring
  rw [h4, Int.add_mul_emod_self_left]

theorem jsWrap_mem (n : ℤ) : 0 ≤ jsWrap n WORLD_SIZE ∧ jsWrap n WORLD_SIZE < WORLD_SIZE := by
  have h : jsWrap n WORLD_SIZE = n % 256 := jsWrap_eq_emod n
  rw [show WORLD_SIZE = 256 from rfl] at h ⊢
  rw [h]
  constructor
  · exact Int.emod_nonneg n (by norm_num)
  · exact Int.emod_lt_of_pos n (by norm_num)

theorem jsWrap_eq_of_mem (n : ℤ) (h0 : 0 ≤ n) (h1 : n < 256) : jsWrap n 256 = n := by
  rw [jsWrap_eq_emod, Int.emod_eq_of_lt h0 h1]

/-- C7: the wrap `((n % size) + size) % size` maps every integer — large
negatives included — into `[0, WORLD_SIZE)`, and the heightmap value read
by chunk meshing for any (possibly out-of-range) chunk coordinates equals
the value read by the congruent in-bounds chunk
`(cx % (WORLD_SIZE / CHUNK_SIZE), cz % (WORLD_SIZE / CHUNK_SIZE))`. -/
theorem C7_wrap_correctness (hm : ℤ → ℤ → ℤ) :
    (∀ n : ℤ, 0 ≤ jsWrap n WORLD_SIZE ∧ jsWrap n WORLD_SIZE < WORLD_SIZE) ∧
    (∀ cx cz : ℤ, ∀ x z : ℕ,
      chunkHeight hm cx cz x z =
        chunkHeight hm (cx % (WORLD_SIZE / CHUNK_SIZE)) (cz % (WORLD_SIZE / CHUNK_SIZE)) x z) := by
  constructor
  · exact jsWrap_mem
  · intro cx cz x z
    unfold chunkHeight
    rw [show WORLD_SIZE = 256 from rfl, show CHUNK_SIZE = 16 from rfl]
    rw [jsWrap_eq_emod, jsWrap_eq_emod, jsWrap_eq_emod, jsWrap_eq_emod]
    norm_num
    have ha : (cz * 16 + (z : ℤ)) % 256 = (cz % 16 * 16 + (z : ℤ)) % 256 := by omega
    have hb : (cx * 16 + (x : ℤ)) % 256 = (cx % 16 * 16 + (x : ℤ)) % 256 := by omega
    rw [ha, hb]

/-! ### Cache correctness of the noise functions -/

theorem randomGradient_fst {seed : ℝ} {st : NoiseState} (h : GradOK seed st)
    (ix iy : ℤ) : (randomGradient seed st ix iy).1 = randomGradientP seed ix iy := by
  unfold randomGradient
  cases hg : st.gradients (ix, iy) with
  | none => simp
  | some g => simpa using h ix iy g hg

theorem randomGradient_memory (seed : ℝ) (st : NoiseState) (ix iy : ℤ) :
    ((randomGradient seed st ix iy).2).memory = st.memory := by
  unfold randomGradient
  cases hg : st.gradients (ix, iy) <;> simp

theorem randomGradient_gradOK {seed : ℝ} {st : NoiseState} (h : GradOK seed st)
    (ix iy : ℤ) : GradOK seed (randomGradient seed st ix iy).2 := by
  unfold randomGradient
  cases hg : st.gradients (ix, iy) with
  | some g => simpa using h
  | none =>
    intro a b g' hg'
    have hu : Function.update st.gradients (ix, iy)
        (some (randomGradientP seed ix iy)) (a, b) = some g' := hg'
    rw [Function.update_apply] at hu
    split at hu
    · rename_i hk
      injection hk with hk1 hk2
      subst hk1; subst hk2
      exact (Option.some_inj.mp hu).symm
    · exact h a b g' hu

theorem dotGridGradient_fst {seed : ℝ} {st : NoiseState} (h : GradOK seed st)
    (ix iy : ℤ) (x y : ℝ) :
    (dotGridGradient seed st ix iy x y).1 = dotGridGradientP seed ix iy x y := by
  simp only [dotGridGradient, dotGridGradientP]
  rw [randomGradient_fst h]

theorem dotGridGradient_snd (seed : ℝ) (st : NoiseState) (ix iy : ℤ) (x y : ℝ) :
    (dotGridGradient seed st ix iy x y).2 = (randomGradient seed st ix iy).2 := rfl

theorem dotGridGradient_gradOK {seed : ℝ} {st : NoiseState} (h : GradOK seed st)
    (ix iy : ℤ) (x y : ℝ) : GradOK seed (dotGridGradient seed st ix iy x y).2 := by
  rw [dotGridGradient_snd]
  exact randomGradient_gradOK h ix iy

theorem dotGridGradient_memory (seed : ℝ) (st : NoiseState) (ix iy : ℤ) (x y : ℝ) :
    ((dotGridGradient seed st ix iy x y).2).memory = st.memory := by
  rw [dotGridGradient_snd, randomGradient_memory]

theorem noise_spec (seed : ℝ) (st : NoiseState) (x y : ℝ)
    (hg : GradOK seed st) (hm : MemOK seed st) :
    (noise seed st x y).1 = noiseP seed x y ∧
    GradOK seed (noise seed st x y).2 ∧ MemOK seed (noise seed st x y).2 := by
  unfold noise
  cases hmem : st.memory (x, y) with
  | some v =>
    simp only
    exact ⟨hm x y v hmem, hg, hm⟩
  | none =>
    simp only
    have hg1 := dotGridGradient_gradOK hg ⌊x⌋ ⌊y⌋ x y
    have hg2 := dotGridGradient_gradOK hg1 (⌊x⌋ + 1) ⌊y⌋ x y
    have hg3 := dotGridGradient_gradOK hg2 ⌊x⌋ (⌊y⌋ + 1) x y
    have hg4 := dotGridGradient_gradOK hg3 (⌊x⌋ + 1) (⌊y⌋ + 1) x y
    have e0 := dotGridGradient_fst hg ⌊x⌋ ⌊y⌋ x y
    have e1 := dotGridGradient_fst hg1 (⌊x⌋ + 1) ⌊y⌋ x y
    have e2 := dotGridGradient_fst hg2 ⌊x⌋ (⌊y⌋ + 1) x y
    have e3 := dotGridGradient_fst hg3 (⌊x⌋ + 1) (⌊y⌋ + 1) x y
    have hmemeq : ((dotGridGradient seed
        ((dotGridGradient seed
          ((dotGridGradient seed ((dotGridGradient seed st ⌊x⌋ ⌊y⌋ x y).2)
            (⌊x⌋ + 1) ⌊y⌋ x y).2) ⌊x⌋ (⌊y⌋ + 1) x y).2)
        (⌊x⌋ + 1) (⌊y⌋ + 1) x y).2).memory = st.memory := by
      rw [dotGridGradient_memory, dotGridGradient_memory, dotGridGradient_memory,
        dotGridGradient_memory]
    have hval : interpolate
        (interpolate (dotGridGradient seed st ⌊x⌋ ⌊y⌋ x y).1
          (dotGridGradient seed (dotGridGradient seed st ⌊x⌋ ⌊y⌋ x y).2
            (⌊x⌋ + 1) ⌊y⌋ x y).1 (x - (⌊x⌋ : ℝ)))
        (interpolate (dotGridGradient seed ((dotGridGradient seed
            ((dotGridGradient seed st ⌊x⌋ ⌊y⌋ x y).2)) (⌊x⌋ + 1) ⌊y⌋ x y).2
            ⌊x⌋ (⌊y⌋ + 1) x y).1
          (dotGridGradient seed ((dotGridGradient seed ((dotGridGradient seed
            ((dotGridGradient seed st ⌊x⌋ ⌊y⌋ x y).2)) (⌊x⌋ + 1) ⌊y⌋ x y).2)
            ⌊x⌋ (⌊y⌋ + 1) x y).2 (⌊x⌋ + 1) (⌊y⌋ + 1) x y).1 (x - (⌊x⌋ : ℝ)))
        (y - (⌊y⌋ : ℝ)) = noiseP seed x y := by
      rw [e0, e1, e2, e3]
      rfl
    refine ⟨hval, hg4, ?_⟩
    intro a b v hv
    have hu : Function.update (((dotGridGradient seed
        ((dotGridGradient seed
          ((dotGridGradient seed ((dotGridGradient seed st ⌊x⌋ ⌊y⌋ x y).2)
            (⌊x⌋ + 1) ⌊y⌋ x y).2) ⌊x⌋ (⌊y⌋ + 1) x y).2)
        (⌊x⌋ + 1) (⌊y⌋ + 1) x y).2).memory) (x, y)
        (some (interpolate
          (interpolate (dotGridGradient seed st ⌊x⌋ ⌊y⌋ x y).1
            (dotGridGradient seed (dotGridGradient seed st ⌊x⌋ ⌊y⌋ x y).2
              (⌊x⌋ + 1) ⌊y⌋ x y).1 (x - (⌊x⌋ : ℝ)))
          (interpolate (dotGridGradient seed ((dotGridGradient seed
              ((dotGridGradient seed st ⌊x⌋ ⌊y⌋ x y).2)) (⌊x⌋ + 1) ⌊y⌋ x y).2
              ⌊x⌋ (⌊y⌋ + 1) x y).1
            (dotGridGradient seed ((dotGridGradient seed ((dotGridGradient seed
              ((dotGridGradient seed st ⌊x⌋ ⌊y⌋ x y).2)) (⌊x⌋ + 1) ⌊y⌋ x y).2)
              ⌊x⌋ (⌊y⌋ + 1) x y).2 (⌊x⌋ + 1) (⌊y⌋ + 1) x y).1 (x - (⌊x⌋ : ℝ)))
          (y - (⌊y⌋ : ℝ)))) (a, b) = some v := hv
    rw [hmemeq, Function.update_apply] at hu
    split at hu
    · rename_i hk
      injection hk with hk1 hk2
      subst hk1; subst hk2
      rw [← hval]
      exact (Option.some_inj.mp hu).symm
    · exact hm a b v hu

theorem octaveLoop_spec (seed x y pers : ℝ) (n : ℕ) :
    ∀ (freq amp : ℝ) (st : NoiseState), GradOK seed st → MemOK seed st →
      (octaveLoop seed x y pers n freq amp st).1 =
        (octaveLoopP seed x y pers n freq amp).1 ∧
      (octaveLoop seed x y pers n freq amp st).2.1 =
        (octaveLoopP seed x y pers n freq amp).2 ∧
      GradOK seed (octaveLoop seed x y pers n freq amp st).2.2 ∧
      MemOK seed (octaveLoop seed x y pers n freq amp st).2.2 := by
  induction n with
  | zero =>
    intro freq amp st hg hm
    exact ⟨rfl, rfl, hg, hm⟩
  | succ n ih =>
    intro freq amp st hg hm
    have hn := noise_spec seed st (x * freq) (y * freq) hg hm
    have hrec := ih (freq * 2) (amp * pers)
      ((noise seed st (x * freq) (y * freq)).2) hn.2.1 hn.2.2
    refine ⟨?_, ?_, hrec.2.2.1, hrec.2.2.2⟩
    · show (noise seed st (x * freq) (y * freq)).1 * amp +
        (octaveLoop seed x y pers n (freq * 2) (amp * pers)
          (noise seed st (x * freq) (y * freq)).2).1 =
        noiseP seed (x * freq) (y * freq) * amp +
        (octaveLoopP seed x y pers n (freq * 2) (amp * pers)).1
      rw [hn.1, hrec.1]
    · show amp + (octaveLoop seed x y pers n (freq * 2) (amp * pers)
          (noise seed st (x * freq) (y * freq)).2).2.1 =
        amp + (octaveLoopP seed x y pers n (freq * 2) (amp * pers)).2
      rw [hrec.2.1]

/-- C9: with the seed fixed, the noise functions are deterministic: calls
to `noise(x, y)` from any two cache states satisfying the cache invariants
(in particular any states reachable from a fresh instance) return the same
value, equal to the pure cache-free recomputation `noiseP`; likewise
`octaveNoise` for any octave count and persistence. -/
theorem C9_deterministic_noise (seed x y : ℝ) (st st' : NoiseState)
    (hg : GradOK seed st) (hm : MemOK seed st)
    (hg' : GradOK seed st') (hm' : MemOK seed st') :
    ((noise seed st x y).1 = (noise seed st' x y).1 ∧
      (noise seed st x y).1 = noiseP seed x y) ∧
    ∀ (octaves : ℕ) (persistence : ℝ),
      (octaveNoise seed st x y octaves persistence).1 =
        (octaveNoise seed st' x y octaves persistence).1 ∧
      (octaveNoise seed st x y octaves persistence).1 =
        octaveNoiseP seed x y octaves persistence := by
  have h1 := noise_spec seed st x y hg hm
  have h2 := noise_spec seed st' x y hg' hm'
  refine ⟨⟨h1.1.trans h2.1.symm, h1.1⟩, ?_⟩
  intro octaves persistence
  have o1 := octaveLoop_spec seed x y persistence octaves 1 1 st hg hm
  have o2 := octaveLoop_spec seed x y persistence octaves 1 1 st' hg' hm'
  constructor
  · show (octaveLoop seed x y persistence octaves 1 1 st).1 /
        (octaveLoop seed x y persistence octaves 1 1 st).2.1 =
      (octaveLoop seed x y persistence octaves 1 1 st').1 /
        (octaveLoop seed x y persistence octaves 1 1 st').2.1
    rw [o1.1, o1.2.1, o2.1, o2.2.1]
  · show (octaveLoop seed x y persistence octaves 1 1 st).1 /
        (octaveLoop seed x y persistence octaves 1 1 st).2.1 =
      (octaveLoopP seed x y persistence octaves 1 1).1 /
        (octaveLoopP seed x y persistence octaves 1 1).2
    rw [o1.1, o1.2.1]

theorem initState_gradOK (seed : ℝ) : GradOK seed initState :=
  fun _ _ _ h => nomatch h

theorem initState_memOK (seed : ℝ) : MemOK seed initState :=
  fun _ _ _ h => nomatch h

/-- Witness for C9 at concrete inputs: a fresh `PerlinNoise` instance
satisfies the cache invariants and `noise(10, 10)` returns the pure value. -/
theorem C9_deterministic_noise_witness :
    (noise 0 initState 10 10).1 = noiseP 0 10 10 :=
  (C9_deterministic_noise 0 10 10 initState initState
    (initState_gradOK 0) (initState_memOK 0)
    (initState_gradOK 0) (initState_memOK 0)).1.2

/-! ### Octave normalization (C10) and bounds (C3) -/

theorem octaveLoop_snd_nonneg (seed x y pers : ℝ) (hp : 0 ≤ pers) (n : ℕ) :
    ∀ (freq amp : ℝ) (st : NoiseState), 0 ≤ amp →
      0 ≤ (octaveLoop seed x y pers n freq amp st).2.1 := by
  induction n with
  | zero => intro freq amp st _; exact le_refl 0
  | succ n ih =>
    intro freq amp st ha
    have := ih (freq * 2) (amp * pers)
      ((noise seed st (x * freq) (y * freq)).2) (mul_nonneg ha hp)
    show 0 ≤ amp + (octaveLoop seed x y pers n (freq * 2) (amp * pers)
      (noise seed st (x * freq) (y * freq)).2).2.1
    linarith

/-- C10: in every call `octaveNoise(x, y, octaves, persistence)` with
`octaves ≥ 1` and `persistence ∈ (0, 1]`, the accumulated normalizer
`maxValue` is at least 1 (the amplitude starts at 1), so the final
division `total / maxValue` never divides by zero. -/
theorem C10_normalizer_ge_one (seed x y persistence : ℝ) (st : NoiseState)
    (octaves : ℕ) (hoct : 1 ≤ octaves) (hp0 : 0 < persistence)
    (hp1 : persistence ≤ 1) :
    1 ≤ (octaveLoop seed x y persistence octaves 1 1 st).2.1 ∧
    (octaveLoop seed x y persistence octaves 1 1 st).2.1 ≠ 0 := by
  obtain ⟨m, rfl⟩ : ∃ m, octaves = m + 1 := ⟨octaves - 1, by omega⟩
  have hrest := octaveLoop_snd_nonneg seed x y persistence hp0.le m (1 * 2)
    (1 * persistence) ((noise seed st (x * 1) (y * 1)).2)
    (by linarith)
  have hshape : (octaveLoop seed x y persistence (m + 1) 1 1 st).2.1 =
      1 + (octaveLoop seed x y persistence m (1 * 2) (1 * persistence)
        (noise seed st (x * 1) (y * 1)).2).2.1 := rfl
  constructor
  · rw [hshape]; linarith
  · rw [hshape]; intro hc; linarith

/-- Witness for C10 at the concrete call of the heightmap build:
`octaves = 4`, `persistence = 0.5`, fresh caches. -/
theorem C10_normalizer_ge_one_witness :
    1 ≤ (octaveLoop 0 10 10 (1 / 2) 4 1 1 initState).2.1 :=
  (C10_normalizer_ge_one 0 10 10 (1 / 2) initState 4 (by norm_num)
    (by norm_num) (by norm_num)).1

theorem randomGradientP_unit (seed : ℝ) (ix iy : ℤ) :
    (randomGradientP seed ix iy).1 ^ 2 + (randomGradientP seed ix iy).2 ^ 2 = 1 := by
  simp only [randomGradientP]
  exact Real.cos_sq_add_sin_sq _

theorem dotGridGradientP_abs_le (seed : ℝ) (ix iy : ℤ) (x y : ℝ) :
    |dotGridGradientP seed ix iy x y| ≤ |x - (ix : ℝ)| + |y - (iy : ℝ)| := by
  simp only [dotGridGradientP]
  have hu := randomGradientP_unit seed ix iy
  have h1 : |(randomGradientP seed ix iy).1| ≤ 1 := by
    rw [abs_le]
    constructor
    · nlinarith [sq_nonneg (randomGradientP seed ix iy).2,
        sq_nonneg ((randomGradientP seed ix iy).1 + 1)]
    · nlinarith [sq_nonneg (randomGradientP seed ix iy).2,
        sq_nonneg ((randomGradientP seed ix iy).1 - 1)]
  have h2 : |(randomGradientP seed ix iy).2| ≤ 1 := by
    rw [abs_le]
    constructor
    · nlinarith [sq_nonneg (randomGradientP seed ix iy).1,
        sq_nonneg ((randomGradientP seed ix iy).2 + 1)]
    · nlinarith [sq_nonneg (randomGradientP seed ix iy).1,
        sq_nonneg ((randomGradientP seed ix iy).2 - 1)]
  calc |(x - (ix : ℝ)) * (randomGradientP seed ix iy).1 +
        (y - (iy : ℝ)) * (randomGradientP seed ix iy).2|
      ≤ |(x - (ix : ℝ)) * (randomGradientP seed ix iy).1| +
        |(y - (iy : ℝ)) * (randomGradientP seed ix iy).2| := abs_add _ _
    _ = |x - (ix : ℝ)| * |(randomGradientP seed ix iy).1| +
        |y - (iy : ℝ)| * |(randomGradientP seed ix iy).2| := by
          rw [abs_mul, abs_mul]
    _ ≤ |x - (ix : ℝ)| * 1 + |y - (iy : ℝ)| * 1 :=
          add_le_add (mul_le_mul_of_nonneg_left h1 (abs_nonneg _))
            (mul_le_mul_of_nonneg_left h2 (abs_nonneg _))
    _ = |x - (ix : ℝ)| + |y - (iy : ℝ)| := by ring

theorem smooth_nonneg (w : ℝ) (h0 : 0 ≤ w) (h1 : w ≤ 1) :
    0 ≤ (3 - w * 2) * w * w := by
  have h3 : 0 ≤ 3 - w * 2 := by linarith
  exact mul_nonneg (mul_nonneg h3 h0) h0

theorem smooth_le_one (w : ℝ) (h0 : 0 ≤ w) (h1 : w ≤ 1) :
    (3 - w * 2) * w * w ≤ 1 := by
  nlinarith [sq_nonneg (1 - w)]

theorem interpolate_abs_le (a0 a1 w c0 c1 : ℝ) (h0 : 0 ≤ w) (h1 : w ≤ 1)
    (ha0 : |a0| ≤ c0) (ha1 : |a1| ≤ c1) :
    |interpolate a0 a1 w| ≤ (1 - (3 - w * 2) * w * w) * c0 +
      ((3 - w * 2) * w * w) * c1 := by
  have ht0 := smooth_nonneg w h0 h1
  have ht1 := smooth_le_one w h0 h1
  have he : interpolate a0 a1 w =
      (1 - (3 - w * 2) * w * w) * a0 + ((3 - w * 2) * w * w) * a1 := by
    simp only [interpolate]; ring
  rw [he]
  calc |(1 - (3 - w * 2) * w * w) * a0 + ((3 - w * 2) * w * w) * a1|
      ≤ |(1 - (3 - w * 2) * w * w) * a0| + |((3 - w * 2) * w * w) * a1| :=
        abs_add _ _
    _ = (1 - (3 - w * 2) * w * w) * |a0| + ((3 - w * 2) * w * w) * |a1| := by
        rw [abs_mul, abs_mul, abs_of_nonneg (by linarith : (0:ℝ) ≤ 1 - (3 - w * 2) * w * w),
          abs_of_nonneg ht0]
    _ ≤ (1 - (3 - w * 2) * w * w) * c0 + ((3 - w * 2) * w * w) * c1 :=
        add_le_add (mul_le_mul_of_nonneg_left ha0 (by linarith))
          (mul_le_mul_of_nonneg_left ha1 ht0)

theorem smooth_mix_le_half (s : ℝ) (h0 : 0 ≤ s) (h1 : s ≤ 1) :
    (1 - (3 - s * 2) * s * s) * s + ((3 - s * 2) * s * s) * (1 - s) ≤ 1 / 2 := by
  nlinarith [mul_nonneg (sq_nonneg (2 * s - 1))
    (by nlinarith : (0:ℝ) ≤ 1 + 2 * s - 2 * s * s)]

theorem noiseP_abs_le_one (seed x y : ℝ) : |noiseP seed x y| ≤ 1 := by
  have hsx0 : (0:ℝ) ≤ x - (⌊x⌋ : ℝ) := sub_nonneg.mpr (Int.floor_le x)
  have hsx1 : x - (⌊x⌋ : ℝ) ≤ 1 := by have := Int.lt_floor_add_one x; linarith
  have hsy0 : (0:ℝ) ≤ y - (⌊y⌋ : ℝ) := sub_nonneg.mpr (Int.floor_le y)
  have hsy1 : y - (⌊y⌋ : ℝ) ≤ 1 := by have := Int.lt_floor_add_one y; linarith
  have hb0 : |dotGridGradientP seed ⌊x⌋ ⌊y⌋ x y| ≤
      (x - (⌊x⌋ : ℝ)) + (y - (⌊y⌋ : ℝ)) := by
    have := dotGridGradientP_abs_le seed ⌊x⌋ ⌊y⌋ x y
    rwa [abs_of_nonneg hsx0, abs_of_nonneg hsy0] at this
  have hb1 : |dotGridGradientP seed (⌊x⌋ + 1) ⌊y⌋ x y| ≤
      (1 - (x - (⌊x⌋ : ℝ))) + (y - (⌊y⌋ : ℝ)) := by
    have h := dotGridGradientP_abs_le seed (⌊x⌋ + 1) ⌊y⌋ x y
    have e : |x - ((⌊x⌋ + 1 : ℤ) : ℝ)| = 1 - (x - (⌊x⌋ : ℝ)) := by
      rw [abs_of_nonpos (by push_cast; linarith)]
      push_cast; ring
    rwa [e, abs_of_nonneg hsy0] at h
  have hb2 : |dotGridGradientP seed ⌊x⌋ (⌊y⌋ + 1) x y| ≤
      (x - (⌊x⌋ : ℝ)) + (1 - (y - (⌊y⌋ : ℝ))) := by
    have h := dotGridGradientP_abs_le seed ⌊x⌋ (⌊y⌋ + 1) x y
    have e : |y - ((⌊y⌋ + 1 : ℤ) : ℝ)| = 1 - (y - (⌊y⌋ : ℝ)) := by
      rw [abs_of_nonpos (by push_cast; linarith)]
      push_cast; ring
    rwa [e, abs_of_nonneg hsx0] at h
  have hb3 : |dotGridGradientP seed (⌊x⌋ + 1) (⌊y⌋ + 1) x y| ≤
      (1 - (x - (⌊x⌋ : ℝ))) + (1 - (y - (⌊y⌋ : ℝ))) := by
    have h := dotGridGradientP_abs_le seed (⌊x⌋ + 1) (⌊y⌋ + 1) x y
    have e1 : |x - ((⌊x⌋ + 1 : ℤ) : ℝ)| = 1 - (x - (⌊x⌋ : ℝ)) := by
      rw [abs_of_nonpos (by push_cast; linarith)]
      push_cast; ring
    have e2 : |y - ((⌊y⌋ + 1 : ℤ) : ℝ)| = 1 - (y - (⌊y⌋ : ℝ)) := by
      rw [abs_of_nonpos (by push_cast; linarith)]
      push_cast; ring
    rwa [e1, e2] at h
  have hix0 : |interpolate (dotGridGradientP seed ⌊x⌋ ⌊y⌋ x y)
      (dotGridGradientP seed (⌊x⌋ + 1) ⌊y⌋ x y) (x - (⌊x⌋ : ℝ))| ≤
      (1 - (3 - (x - (⌊x⌋ : ℝ)) * 2) * (x - (⌊x⌋ : ℝ)) * (x - (⌊x⌋ : ℝ))) *
        ((x - (⌊x⌋ : ℝ)) + (y - (⌊y⌋ : ℝ))) +
      ((3 - (x - (⌊x⌋ : ℝ)) * 2) * (x - (⌊x⌋ : ℝ)) * (x - (⌊x⌋ : ℝ))) *
        ((1 - (x - (⌊x⌋ : ℝ))) + (y - (⌊y⌋ : ℝ))) :=
    interpolate_abs_le _ _ _ _ _ hsx0 hsx1 hb0 hb1
  have hix1 : |interpolate (dotGridGradientP seed ⌊x⌋ (⌊y⌋ + 1) x y)
      (dotGridGradientP seed (⌊x⌋ + 1) (⌊y⌋ + 1) x y) (x - (⌊x⌋ : ℝ))| ≤
      (1 - (3 - (x - (⌊x⌋ : ℝ)) * 2) * (x - (⌊x⌋ : ℝ)) * (x - (⌊x⌋ : ℝ))) *
        ((x - (⌊x⌋ : ℝ)) + (1 - (y - (⌊y⌋ : ℝ)))) +
      ((3 - (x - (⌊x⌋ : ℝ)) * 2) * (x - (⌊x⌋ : ℝ)) * (x - (⌊x⌋ : ℝ))) *
        ((1 - (x - (⌊x⌋ : ℝ))) + (1 - (y - (⌊y⌋ : ℝ)))) :=
    interpolate_abs_le _ _ _ _ _ hsx0 hsx1 hb2 hb3
  have hmain : |noiseP seed x y| ≤
      (1 - (3 - (y - (⌊y⌋ : ℝ)) * 2) * (y - (⌊y⌋ : ℝ)) * (y - (⌊y⌋ : ℝ))) *
        ((1 - (3 - (x - (⌊x⌋ : ℝ)) * 2) * (x - (⌊x⌋ : ℝ)) * (x - (⌊x⌋ : ℝ))) *
          ((x - (⌊x⌋ : ℝ)) + (y - (⌊y⌋ : ℝ))) +
        ((3 - (x - (⌊x⌋ : ℝ)) * 2) * (x - (⌊x⌋ : ℝ)) * (x - (⌊x⌋ : ℝ))) *
          ((1 - (x - (⌊x⌋ : ℝ))) + (y - (⌊y⌋ : ℝ)))) +
      ((3 - (y - (⌊y⌋ : ℝ)) * 2) * (y - (⌊y⌋ : ℝ)) * (y - (⌊y⌋ : ℝ))) *
        ((1 - (3 - (x - (⌊x⌋ : ℝ)) * 2) * (x - (⌊x⌋ : ℝ)) * (x - (⌊x⌋ : ℝ))) *
          ((x - (⌊x⌋ : ℝ)) + (1 - (y - (⌊y⌋ : ℝ)))) +
        ((3 - (x - (⌊x⌋ : ℝ)) * 2) * (x - (⌊x⌋ : ℝ)) * (x - (⌊x⌋ : ℝ))) *
          ((1 - (x - (⌊x⌋ : ℝ))) + (1 - (y - (⌊y⌋ : ℝ))))) := by
    show |interpolate (interpolate (dotGridGradientP seed ⌊x⌋ ⌊y⌋ x y)
        (dotGridGradientP seed (⌊x⌋ + 1) ⌊y⌋ x y) (x - (⌊x⌋ : ℝ)))
      (interpolate (dotGridGradientP seed ⌊x⌋ (⌊y⌋ + 1) x y)
        (dotGridGradientP seed (⌊x⌋ + 1) (⌊y⌋ + 1) x y) (x - (⌊x⌋ : ℝ)))
      (y - (⌊y⌋ : ℝ))| ≤ _
    exact interpolate_abs_le _ _ _ _ _ hsy0 hsy1 hix0 hix1
  have hfx := smooth_mix_le_half (x - (⌊x⌋ : ℝ)) hsx0 hsx1
  have hfy := smooth_mix_le_half (y - (⌊y⌋ : ℝ)) hsy0 hsy1
  have hsplit : (1 - (3 - (y - (⌊y⌋ : ℝ)) * 2) * (y - (⌊y⌋ : ℝ)) * (y - (⌊y⌋ : ℝ))) *
        ((1 - (3 - (x - (⌊x⌋ : ℝ)) * 2) * (x - (⌊x⌋ : ℝ)) * (x - (⌊x⌋ : ℝ))) *
          ((x - (⌊x⌋ : ℝ)) + (y - (⌊y⌋ : ℝ))) +
        ((3 - (x - (⌊x⌋ : ℝ)) * 2) * (x - (⌊x⌋ : ℝ)) * (x - (⌊x⌋ : ℝ))) *
          ((1 - (x - (⌊x⌋ : ℝ))) + (y - (⌊y⌋ : ℝ)))) +
      ((3 - (y - (⌊y⌋ : ℝ)) * 2) * (y - (⌊y⌋ : ℝ)) * (y - (⌊y⌋ : ℝ))) *
        ((1 - (3 - (x - (⌊x⌋ : ℝ)) * 2) * (x - (⌊x⌋ : ℝ)) * (x - (⌊x⌋ : ℝ))) *
          ((x - (⌊x⌋ : ℝ)) + (1 - (y - (⌊y⌋ : ℝ)))) +
        ((3 - (x - (⌊x⌋ : ℝ)) * 2) * (x - (⌊x⌋ : ℝ)) * (x - (⌊x⌋ : ℝ))) *
          ((1 - (x - (⌊x⌋ : ℝ))) + (1 - (y - (⌊y⌋ : ℝ))))) =
      ((1 - (3 - (x - (⌊x⌋ : ℝ)) * 2) * (x - (⌊x⌋ : ℝ)) * (x - (⌊x⌋ : ℝ))) *
          (x - (⌊x⌋ : ℝ)) +
        ((3 - (x - (⌊x⌋ : ℝ)) * 2) * (x - (⌊x⌋ : ℝ)) * (x - (⌊x⌋ : ℝ))) *
          (1 - (x - (⌊x⌋ : ℝ)))) +
      ((1 - (3 - (y - (⌊y⌋ : ℝ)) * 2) * (y - (⌊y⌋ : ℝ)) * (y - (⌊y⌋ : ℝ))) *
          (y - (⌊y⌋ : ℝ)) +
        ((3 - (y - (⌊y⌋ : ℝ)) * 2) * (y - (⌊y⌋ : ℝ)) * (y - (⌊y⌋ : ℝ))) *
          (1 - (y - (⌊y⌋ : ℝ)))) := by ring
  rw [hsplit] at hmain
  linarith

theorem octaveLoopP_abs_le (seed x y pers : ℝ) (hp : 0 ≤ pers) (n : ℕ) :
    ∀ freq amp : ℝ, 0 ≤ amp →
      |(octaveLoopP seed x y pers n freq amp).1| ≤
        (octaveLoopP seed x y pers n freq amp).2 ∧
      0 ≤ (octaveLoopP seed x y pers n freq amp).2 := by
  induction n with
  | zero =>
    intro freq amp _
    constructor
    · show |(0:ℝ)| ≤ 0
      simp
    · exact le_refl 0
  | succ n ih =>
    intro freq amp ha
    have hrec := ih (freq * 2) (amp * pers) (mul_nonneg ha hp)
    have hnv := noiseP_abs_le_one seed (x * freq) (y * freq)
    constructor
    · show |noiseP seed (x * freq) (y * freq) * amp +
          (octaveLoopP seed x y pers n (freq * 2) (amp * pers)).1| ≤
        amp + (octaveLoopP seed x y pers n (freq * 2) (amp * pers)).2
      calc |noiseP seed (x * freq) (y * freq) * amp +
            (octaveLoopP seed x y pers n (freq * 2) (amp * pers)).1|
          ≤ |noiseP seed (x * freq) (y * freq) * amp| +
            |(octaveLoopP seed x y pers n (freq * 2) (amp * pers)).1| := abs_add _ _
        _ = |noiseP seed (x * freq) (y * freq)| * amp +
            |(octaveLoopP seed x y pers n (freq * 2) (amp * pers)).1| := by
              rw [abs_mul, abs_of_nonneg ha]
        _ ≤ 1 * amp + (octaveLoopP seed x y pers n (freq * 2) (amp * pers)).2 :=
              add_le_add (mul_le_mul_of_nonneg_right hnv ha) hrec.1
        _ = amp + (octaveLoopP seed x y pers n (freq * 2) (amp * pers)).2 := by ring
    · show 0 ≤ amp + (octaveLoopP seed x y pers n (freq * 2) (amp * pers)).2
      linarith [hrec.2]

theorem octaveLoopP_snd_ge (seed x y pers : ℝ) (hp : 0 ≤ pers) (m : ℕ)
    (freq amp : ℝ) (ha : 0 ≤ amp) :
    amp ≤ (octaveLoopP seed x y pers (m + 1) freq amp).2 := by
  have hrest := (octaveLoopP_abs_le seed x y pers hp m (freq * 2) (amp * pers)
    (mul_nonneg ha hp)).2
  show amp ≤ amp + (octaveLoopP seed x y pers m (freq * 2) (amp * pers)).2
  linarith

theorem octaveNoiseP_bounds (seed x y : ℝ) :
    -1 ≤ octaveNoiseP seed x y 4 (1 / 2) ∧ octaveNoiseP seed x y 4 (1 / 2) ≤ 1 := by
  have hm1 : 1 ≤ (octaveLoopP seed x y (1 / 2) 4 1 1).2 := by
    have := octaveLoopP_snd_ge seed x y (1 / 2) (by norm_num) 3 1 1 (by norm_num)
    exact this
  have habs := (octaveLoopP_abs_le seed x y (1 / 2) (by norm_num) 4 1 1
    (by norm_num)).1
  have h0 : (0:ℝ) < (octaveLoopP seed x y (1 / 2) 4 1 1).2 := by linarith
  have hq : |octaveNoiseP seed x y 4 (1 / 2)| ≤ 1 := by
    show |(octaveLoopP seed x y (1 / 2) 4 1 1).1 /
      (octaveLoopP seed x y (1 / 2) 4 1 1).2| ≤ 1
    rw [abs_div, abs_of_pos h0, div_le_one h0]
    exact habs
  exact abs_le.mp hq

theorem heightAtWorld_bounds (seed x z : ℝ) :
    5 ≤ heightAtWorld seed x z ∧ heightAtWorld seed x z ≤ 25 := by
  simp only [heightAtWorld]
  have hv := octaveNoiseP_bounds seed
    ((Real.cos (x / ((WORLD_SIZE : ℤ) : ℝ) * 2 * Real.pi) / (2 * Real.pi) + 1) * 100)
    ((Real.sin (x / ((WORLD_SIZE : ℤ) : ℝ) * 2 * Real.pi) / (2 * Real.pi) + 1) * 100)
  constructor
  · have h0 : (0:ℤ) ≤ ⌊(octaveNoiseP seed
        ((Real.cos (x / ((WORLD_SIZE : ℤ) : ℝ) * 2 * Real.pi) / (2 * Real.pi) + 1) * 100)
        ((Real.sin (x / ((WORLD_SIZE : ℤ) : ℝ) * 2 * Real.pi) / (2 * Real.pi) + 1) * 100)
        4 (1 / 2) + 1) * 10⌋ := by
      apply Int.le_floor.mpr
      push_cast
      nlinarith [hv.1]
    linarith
  · have h20 : ⌊(octaveNoiseP seed
        ((Real.cos (x / ((WORLD_SIZE : ℤ) : ℝ) * 2 * Real.pi) / (2 * Real.pi) + 1) * 100)
        ((Real.sin (x / ((WORLD_SIZE : ℤ) : ℝ) * 2 * Real.pi) / (2 * Real.pi) + 1) * 100)
        4 (1 / 2) + 1) * 10⌋ ≤ 20 := by
      have h := Int.floor_le_floor (α := ℝ)
        (show (octaveNoiseP seed
          ((Real.cos (x / ((WORLD_SIZE : ℤ) : ℝ) * 2 * Real.pi) / (2 * Real.pi) + 1) * 100)
          ((Real.sin (x / ((WORLD_SIZE : ℤ) : ℝ) * 2 * Real.pi) / (2 * Real.pi) + 1) * 100)
          4 (1 / 2) + 1) * 10 ≤ (20:ℝ) from by nlinarith [hv.2])
      have h20' : ⌊(20:ℝ)⌋ = 20 := by norm_num
      omega
    linarith

/-- C3: `octaveNoise(x, y, 4, 0.5)` lies in `[-1, 1]` for every real input
pair, and consequently every heightmap cell `floor((v + 1) * 10) + 5` is
an integer in `[5, 25]`. -/
theorem C3_bounded_range (seed : ℝ) :
    (∀ x y : ℝ, -1 ≤ octaveNoiseP seed x y 4 (1 / 2) ∧
      octaveNoiseP seed x y 4 (1 / 2) ≤ 1) ∧
    (∀ x z : ℝ, 5 ≤ heightAtWorld seed x z ∧ heightAtWorld seed x z ≤ 25) :=
  ⟨fun x y => octaveNoiseP_bounds seed x y,
   fun x z => heightAtWorld_bounds seed x z⟩

/-- C1: the circle embedding gives the heightmap build period `WORLD_SIZE`
in each axis: the height computed for pre-wrap `x = 0` equals the height
for `x = WORLD_SIZE` at every `z`, and the height for `z = 0` equals the
height for `z = WORLD_SIZE` at every `x`. -/
theorem C1_seam_continuity (seed : ℝ) :
    (∀ z : ℝ, heightAtWorld seed 0 z = heightAtWorld seed ((WORLD_SIZE : ℤ) : ℝ) z) ∧
    (∀ x : ℝ, heightAtWorld seed x 0 = heightAtWorld seed x ((WORLD_SIZE : ℤ) : ℝ)) := by
  constructor
  · intro z
    simp only [heightAtWorld]
    have hws : ((WORLD_SIZE : ℤ) : ℝ) = 256 := by norm_num [WORLD_SIZE]
    rw [hws]
    have e0 : (0:ℝ) / 256 * 2 * Real.pi = 0 := by norm_num
    have e1 : (256:ℝ) / 256 * 2 * Real.pi = 2 * Real.pi := by norm_num
    rw [e0, e1, Real.cos_zero, Real.sin_zero, Real.cos_two_pi, Real.sin_two_pi]
  · intro x
    rfl

/-- C2: the built heightmap is constant along the `z` axis — the
`z`-derived embedding components `nz`, `nw` are computed but never passed
to the noise sample, so `heightMap[z1][x] = heightMap[z2][x]` for all
indices, and more generally the height is independent of `z`. -/
theorem C2_constant_along_z (seed : ℝ) :
    (∀ z1 z2 x : ℤ, heightMapN seed z1 x = heightMapN seed z2 x) ∧
    (∀ x z1 z2 : ℝ, heightAtWorld seed x z1 = heightAtWorld seed x z2) :=
  ⟨fun _ _ _ => rfl, fun _ _ _ => rfl⟩

/-! ### Mesh vertex counting (C4) -/

theorem countP_concatMap {α β : Type} (p : β → Bool) (f : α → List β) (l : List α) :
    (concatMap f l).countP p = (l.map (fun a => (f a).countP p)).sum := by
  induction l with
  | nil => rfl
  | cons a l ih => simp [concatMap, List.countP_append, ih]

theorem countTop_append (l1 l2 : List Vert) :
    countTop (l1 ++ l2) = countTop l1 + countTop l2 := by
  simp [countTop, List.countP_append]

theorem countTop_concatMap {α : Type} (f : α → List Vert) (l : List α) :
    countTop (concatMap f l) = (l.map (fun a => countTop (f a))).sum :=
  countP_concatMap _ f l

theorem countSide_concatMap {α : Type} (f : α → List Vert) (l : List α) :
    countSide (concatMap f l) = (l.map (fun a => countSide (f a))).sum :=
  countP_concatMap _ f l

theorem countTop_addFace (v0 v1 v2 v3 n : ℤ × ℤ × ℤ) (c : ℚ × ℚ × ℚ)
    (hn : n ≠ (0, 1, 0)) : countTop (addFace v0 v1 v2 v3 n c) = 0 := by
  simp [countTop, addFace, List.countP_cons, hn]

theorem countSide_addFace (v0 v1 v2 v3 n : ℤ × ℤ × ℤ) (c : ℚ × ℚ × ℚ)
    (hn : n ≠ (0, 1, 0)) : countSide (addFace v0 v1 v2 v3 n c) = 6 := by
  simp [countSide, addFace, List.countP_cons, hn]

theorem countTop_addVoxel (x y z h : ℤ) : countTop (addVoxel x y z h) = 6 := by
  by_cases hy : y = h - 1
  · simp [countTop, addVoxel, addFace, List.countP_append, List.countP_cons, hy]
  · simp [countTop, addVoxel, addFace, List.countP_append, List.countP_cons, hy]

theorem countSide_addVoxel (x y z h : ℤ) :
    countSide (addVoxel x y z h) = if y = h - 1 then 24 else 0 := by
  by_cases hy : y = h - 1
  · simp [countSide, addVoxel, addFace, List.countP_append, List.countP_cons, hy]
  · simp [countSide, addVoxel, addFace, List.countP_append, List.countP_cons, hy]

theorem countTop_columnMesh (hm : ℤ → ℤ → ℤ) (cx cz : ℤ) (x z : ℕ) :
    countTop (columnMesh hm cx cz x z) = 6 * (chunkHeight hm cx cz x z).toNat := by
  unfold columnMesh
  rw [countTop_concatMap]
  rw [List.map_congr_left (g := fun _ : ℕ => (6 : ℕ))
    (fun y _ => countTop_addVoxel _ _ _ _)]
  simp [List.map_const', List.sum_replicate, smul_eq_mul, Nat.mul_comm]

theorem sum_indicator_range (n : ℕ) (m : ℤ) (c : ℕ) :
    ((List.range n).map (fun y : ℕ => if (y : ℤ) = m then c else 0)).sum =
      if 0 ≤ m ∧ m < (n : ℤ) then c else 0 := by
  induction n with
  | zero =>
    simp only [List.range_zero, List.map_nil, List.sum_nil]
    rw [if_neg (by omega)]
  | succ n ih =>
    rw [List.range_succ, List.map_append, List.sum_append, ih]
    simp only [List.map_cons, List.map_nil, List.sum_cons, List.sum_nil]
    by_cases hm : (n : ℤ) = m
    · rw [if_pos hm, if_neg (by omega), if_pos (by omega)]
      omega
    · rw [if_neg hm]
      by_cases hc : 0 ≤ m ∧ m < (n : ℤ)
      · rw [if_pos hc, if_pos (by omega)]
        omega
      · rw [if_neg hc, if_neg (by omega)]
        omega

theorem countSide_columnMesh (hm : ℤ → ℤ → ℤ) (cx cz : ℤ) (x z : ℕ) :
    countSide (columnMesh hm cx cz x z) =
      if 1 ≤ chunkHeight hm cx cz x z then 24 else 0 := by
  unfold columnMesh
  rw [countSide_concatMap]
  rw [List.map_congr_left
    (g := fun y : ℕ => if (y : ℤ) = chunkHeight hm cx cz x z - 1 then (24 : ℕ) else 0)
    (fun y _ => countSide_addVoxel _ _ _ _)]
  rw [sum_indicator_range]
  have hiff : (0 ≤ chunkHeight hm cx cz x z - 1 ∧
      chunkHeight hm cx cz x z - 1 < ((chunkHeight hm cx cz x z).toNat : ℤ)) ↔
      1 ≤ chunkHeight hm cx cz x z := by omega
  rw [if_congr hiff rfl rfl]

theorem countTop_generateChunk (hm : ℤ → ℤ → ℤ) (cx cz : ℤ) :
    countTop (generateChunk hm cx cz) =
      6 * ((List.range 16).map (fun z => ((List.range 16).map
        (fun x => (chunkHeight hm cx cz x z).toNat)).sum)).sum := by
  have h16 : CHUNK_SIZE.toNat = 16 := rfl
  unfold generateChunk
  rw [h16, countTop_concatMap]
  rw [List.map_congr_left
    (g := fun z : ℕ => 6 * ((List.range 16).map
      (fun x => (chunkHeight hm cx cz x z).toNat)).sum)
    (fun z _ => by
      rw [countTop_concatMap]
      rw [List.map_congr_left
        (g := fun x : ℕ => 6 * (chunkHeight hm cx cz x z).toNat)
        (fun x _ => countTop_columnMesh hm cx cz x z)]
      rw [List.sum_map_mul_left])]
  rw [List.sum_map_mul_left]

theorem countSide_generateChunk (hm : ℤ → ℤ → ℤ) (cx cz : ℤ)
    (hpos : ∀ x z : ℕ, 1 ≤ chunkHeight hm cx cz x z) :
    countSide (generateChunk hm cx cz) = 16 * 16 * 24 := by
  have h16 : CHUNK_SIZE.toNat = 16 := rfl
  unfold generateChunk
  rw [h16, countSide_concatMap]
  rw [List.map_congr_left (g := fun _ : ℕ => (16 * 24 : ℕ))
    (fun z _ => by
      rw [countSide_concatMap]
      rw [List.map_congr_left (g := fun _ : ℕ => (24 : ℕ))
        (fun x _ => by rw [countSide_columnMesh, if_pos (hpos x z)])]
      simp [List.map_const', List.sum_replicate, smul_eq_mul])]
  simp [List.map_const', List.sum_replicate, smul_eq_mul]

theorem heightMapN_ge_five (seed : ℝ) (z x : ℤ) : 5 ≤ heightMapN seed z x :=
  (heightAtWorld_bounds seed (x : ℝ) (z : ℝ)).1

theorem chunkHeight_heightMapN_ge_five (seed : ℝ) (cx cz : ℤ) (x z : ℕ) :
    5 ≤ chunkHeight (heightMapN seed) cx cz x z :=
  heightMapN_ge_five seed _ _

theorem sum_range_map_ge (n c : ℕ) (f : ℕ → ℕ) (h : ∀ i, i < n → c ≤ f i) :
    n * c ≤ ((List.range n).map f).sum := by
  induction n with
  | zero => simp
  | succ n ih =>
    rw [List.range_succ, List.map_append, List.sum_append]
    simp only [List.map_cons, List.map_nil, List.sum_cons, List.sum_nil]
    have h1 := ih (fun i hi => h i (by omega))
    have h2 := h n (by omega)
    rw [Nat.succ_mul]
    omega

/-- C4 (amended): meshing chunk `(0, 0)` of the built heightmap emits a
6-vertex top face for every voxel of every column — so the top-face vertex
count is `6 *` (sum over the 16×16 columns of that column's height), not
`16 * 16 * 6` — and, as claimed, every column emits exactly 4 side faces
of 6 vertices, once, at its topmost voxel `y == height - 1`, for a side
total of `16 * 16 * 24`. -/
theorem C4_chunk_mesh_counts (seed : ℝ) :
    countTop (generateChunk (heightMapN seed) 0 0) =
      6 * ((List.range 16).map (fun z => ((List.range 16).map
        (fun x => (chunkHeight (heightMapN seed) 0 0 x z).toNat)).sum)).sum ∧
    countSide (generateChunk (heightMapN seed) 0 0) = 16 * 16 * 24 := by
  constructor
  · exact countTop_generateChunk (heightMapN seed) 0 0
  · exact countSide_generateChunk (heightMapN seed) 0 0
      (fun x z => le_trans (by norm_num) (chunkHeight_heightMapN_ge_five seed 0 0 x z))

/-- Counterexample to C4 as stated: for the heightmap built with seed 0,
chunk `(0, 0)` does not have `16 * 16 * 6` top-face vertices — every
column is at least 5 voxels tall, so there are at least `16 * 16 * 5 * 6`
of them. -/
theorem C4_counterexample :
    countTop (generateChunk (heightMapN 0) 0 0) ≠ 16 * 16 * 6 := by
  have hf := countTop_generateChunk (heightMapN 0) 0 0
  have hinner : ∀ z : ℕ, z < 16 →
      (16 * 5 : ℕ) ≤ ((List.range 16).map
        (fun x => (chunkHeight (heightMapN 0) 0 0 x z).toNat)).sum := by
    intro z _
    apply sum_range_map_ge
    intro x _
    have := chunkHeight_heightMapN_ge_five 0 0 0 x z
    omega
  have houter : (16 * (16 * 5) : ℕ) ≤ ((List.range 16).map
      (fun z => ((List.range 16).map
        (fun x => (chunkHeight (heightMapN 0) 0 0 x z).toNat)).sum)).sum :=
    sum_range_map_ge 16 (16 * 5) _ hinner
  omega

/-! ### Chunk loading idempotence (C6) -/

theorem chunkStep_of_isSome (hm : ℤ → ℤ → ℤ) (m : Chunks) (c c' : ℤ × ℤ)
    (h : (m c).isSome = true) : chunkStep hm m c' c = m c := by
  simp only [chunkStep]
  split_ifs with h1 h2
  · rfl
  · have hne : c ≠ c' := by
      intro he
      rw [he] at h
      rw [h] at h1
      exact h1 (by simp)
    exact Function.update_noteq hne _ _
  · rfl

theorem chunkStep_isSome_mono (hm : ℤ → ℤ → ℤ) (m : Chunks) (c c' : ℤ × ℤ)
    (h : (m c).isSome = true) : ((chunkStep hm m c' c).isSome) = true := by
  rw [chunkStep_of_isSome hm m c c' h]
  exact h

theorem chunkStep_fix (hm : ℤ → ℤ → ℤ) (m : Chunks) (c : ℤ × ℤ)
    (h : chunkDone hm m c) : chunkStep hm m c = m := by
  rcases h with h | h
  · unfold chunkStep
    rw [if_pos h]
  · simp only [chunkStep]
    split_ifs with h1 h2
    · rfl
    · rw [h] at h2
      simp at h2
    · rfl

theorem chunkStep_establishes (hm : ℤ → ℤ → ℤ) (m : Chunks) (c : ℤ × ℤ) :
    chunkDone hm (chunkStep hm m c) c := by
  simp only [chunkStep]
  split_ifs with h1 h2
  · exact Or.inl h1
  · left
    rw [Function.update_same]
    rfl
  · right
    have := List.length_eq_zero.mp (by omega : (generateChunk hm c.1 c.2).length = 0)
    exact this

theorem chunkStep_preserves (hm : ℤ → ℤ → ℤ) (m : Chunks) (c c' : ℤ × ℤ)
    (h : chunkDone hm m c) : chunkDone hm (chunkStep hm m c') c := by
  rcases h with h | h
  · exact Or.inl (chunkStep_isSome_mono hm m c c' h)
  · exact Or.inr h

theorem foldl_chunkStep_preserves (hm : ℤ → ℤ → ℤ) (l : List (ℤ × ℤ)) :
    ∀ (m : Chunks) (c : ℤ × ℤ), chunkDone hm m c →
      chunkDone hm (l.foldl (chunkStep hm) m) c := by
  induction l with
  | nil => intro m c h; exact h
  | cons a l ih =>
    intro m c h
    exact ih (chunkStep hm m a) c (chunkStep_preserves hm m c a h)

theorem foldl_chunkStep_done (hm : ℤ → ℤ → ℤ) (l : List (ℤ × ℤ)) :
    ∀ (m : Chunks) (c : ℤ × ℤ), c ∈ l →
      chunkDone hm (l.foldl (chunkStep hm) m) c := by
  induction l with
  | nil => intro m c h; cases h
  | cons a l ih =>
    intro m c h
    rcases List.mem_cons.mp h with rfl | hmem
    · exact foldl_chunkStep_preserves hm l (chunkStep hm m c) c
        (chunkStep_establishes hm m c)
    · exact ih (chunkStep hm m a) c hmem

theorem foldl_chunkStep_fix (hm : ℤ → ℤ → ℤ) (l : List (ℤ × ℤ)) (m : Chunks)
    (h : ∀ c ∈ l, chunkStep hm m c = m) : l.foldl (chunkStep hm) m = m := by
  induction l with
  | nil => rfl
  | cons a l ih =>
    show l.foldl (chunkStep hm) (chunkStep hm m a) = m
    rw [h a (List.mem_cons_self a l)]
    exact ih (fun c hc => h c (List.mem_cons_of_mem a hc))

/-- C6: running the chunk-loading pass twice in succession with the same
player position is idempotent — the second pass adds no chunk entries and
changes no existing entry, because every key it visits is already settled
by the first pass. -/
theorem C6_updateChunks_idempotent (hm : ℤ → ℤ → ℤ) (m : Chunks) (px pz : ℝ) :
    updateChunks hm (updateChunks hm m px pz) px pz = updateChunks hm m px pz := by
  unfold updateChunks
  apply foldl_chunkStep_fix
  intro c hc
  exact chunkStep_fix hm _ c (foldl_chunkStep_done hm _ m c hc)

/-! ### Player update: wrapping and ground clamp (C5) -/

theorem jsFmod_bounds (a : ℝ) : -256 < jsFmod a 256 ∧ jsFmod a 256 < 256 := by
  unfold jsFmod jsTrunc
  split_ifs with h
  · constructor <;>
      linarith [Int.floor_le (a / 256), Int.lt_floor_add_one (a / 256),
        (show a = 256 * (a / 256) by ring)]
  · constructor <;>
      linarith [Int.le_ceil (a / 256), Int.ceil_lt_add_one (a / 256),
        (show a = 256 * (a / 256) by ring)]

theorem jsFmod_mem_of_nonneg (a : ℝ) (ha : 0 ≤ a) :
    0 ≤ jsFmod a 256 ∧ jsFmod a 256 < 256 := by
  unfold jsFmod jsTrunc
  rw [if_pos (div_nonneg ha (by norm_num))]
  constructor <;>
    linarith [Int.floor_le (a / 256), Int.lt_floor_add_one (a / 256),
      (show a = 256 * (a / 256) by ring)]

theorem wrapCoord_mem (a : ℝ) : 0 ≤ wrapCoord a ∧ wrapCoord a < 256 := by
  unfold wrapCoord
  have hws : ((WORLD_SIZE : ℤ) : ℝ) = 256 := by norm_num [WORLD_SIZE]
  rw [hws]
  exact jsFmod_mem_of_nonneg (jsFmod a 256 + 256) (by linarith [(jsFmod_bounds a).1])

theorem wrap_idx_eq (r : ℝ) (h0 : 0 ≤ r) (h1 : r < 256) :
    jsWrap ⌊r⌋ 256 = ⌊r⌋ ∧ Int.tmod ⌊r⌋ 256 = ⌊r⌋ := by
  have hf0 : 0 ≤ ⌊r⌋ := Int.floor_nonneg.mpr h0
  have hf1 : ⌊r⌋ < 256 := Int.floor_lt.mpr (by exact_mod_cast h1)
  exact ⟨jsWrap_eq_of_mem _ hf0 hf1, Int.tmod_eq_of_lt hf0 hf1⟩

/-- C5: after every tick of the player update, the resulting x and z lie
in `[0, WORLD_SIZE)` and the resulting y equals
`heightMap[wrap(floor(z))][wrap(floor(x))] + PLAYER_HEIGHT / 2` where
`wrap` is the `((n % size) + size) % size` wrap of the resulting
coordinates. -/
theorem C5_ground_clamp (hm : ℤ → ℤ → ℤ) (p : Player) (inp : InputState) (dt : ℝ) :
    (0 ≤ (updatePlayer hm p inp dt).px ∧
      (updatePlayer hm p inp dt).px < ((WORLD_SIZE : ℤ) : ℝ)) ∧
    (0 ≤ (updatePlayer hm p inp dt).pz ∧
      (updatePlayer hm p inp dt).pz < ((WORLD_SIZE : ℤ) : ℝ)) ∧
    (updatePlayer hm p inp dt).py =
      (hm (jsWrap ⌊(updatePlayer hm p inp dt).pz⌋ WORLD_SIZE)
          (jsWrap ⌊(updatePlayer hm p inp dt).px⌋ WORLD_SIZE) : ℝ) +
        PLAYER_HEIGHT / 2 := by
  have hws : ((WORLD_SIZE : ℤ) : ℝ) = 256 := by norm_num [WORLD_SIZE]
  have hpx : (updatePlayer hm p inp dt).px = wrapCoord (p.px +
      (displacement inp.keyW inp.keyS inp.keyA inp.keyD
        (if inp.locked then p.rot - inp.mouseX * 0.002 else p.rot) dt).1) := rfl
  have hpz : (updatePlayer hm p inp dt).pz = wrapCoord (p.pz +
      (displacement inp.keyW inp.keyS inp.keyA inp.keyD
        (if inp.locked then p.rot - inp.mouseX * 0.002 else p.rot) dt).2) := rfl
  have hx := wrapCoord_mem (p.px +
      (displacement inp.keyW inp.keyS inp.keyA inp.keyD
        (if inp.locked then p.rot - inp.mouseX * 0.002 else p.rot) dt).1)
  have hz := wrapCoord_mem (p.pz +
      (displacement inp.keyW inp.keyS inp.keyA inp.keyD
        (if inp.locked then p.rot - inp.mouseX * 0.002 else p.rot) dt).2)
  refine ⟨⟨?_, ?_⟩, ⟨?_, ?_⟩, ?_⟩
  · rw [hpx]; exact hx.1
  · rw [hpx, hws]; exact hx.2
  · rw [hpz]; exact hz.1
  · rw [hpz, hws]; exact hz.2
  · have hwx := wrap_idx_eq _ hx.1 hx.2
    have hwz := wrap_idx_eq _ hz.1 hz.2
    have hpy : (updatePlayer hm p inp dt).py =
        (hm (Int.tmod ⌊(updatePlayer hm p inp dt).pz⌋ WORLD_SIZE)
            (Int.tmod ⌊(updatePlayer hm p inp dt).px⌋ WORLD_SIZE) : ℝ) +
          PLAYER_HEIGHT / 2 := rfl
    rw [hpy]
    rw [show WORLD_SIZE = 256 from rfl]
    rw [hpx, hpz, hwx.1, hwx.2, hwz.1, hwz.2]

/-! ### Movement normalization (C8) -/

theorem rotate_scale_vlen (nx nz rot s : ℝ) (hn : nx ^ 2 + nz ^ 2 = 1)
    (hs : 0 ≤ s) :
    vlen ((nx * Real.cos rot - nz * Real.sin rot) * MOVE_SPEED * s,
          (nx * Real.sin rot + nz * Real.cos rot) * MOVE_SPEED * s) =
      MOVE_SPEED * s := by
  unfold vlen MOVE_SPEED
  have hsc := Real.sin_sq_add_cos_sq rot
  have key : ((nx * Real.cos rot - nz * Real.sin rot) * 5 * s) ^ 2 +
      ((nx * Real.sin rot + nz * Real.cos rot) * 5 * s) ^ 2 = (5 * s) ^ 2 := by
    linear_combination (25 * s ^ 2 * (nx ^ 2 + nz ^ 2)) * hsc + (25 * s ^ 2) * hn
  rw [key, Real.sqrt_sq (by linarith)]

/-- C8: holding two perpendicular movement keys (forward and right) moves
the player by exactly `MOVE_SPEED * deltaTime` in one tick — the intent
vector is renormalized and the heading rotation preserves length — the
same magnitude as holding forward alone. -/
theorem C8_diagonal_not_faster (rot dt : ℝ) (hdt : 0 ≤ dt) :
    vlen (displacement true false false true rot dt) = MOVE_SPEED * dt ∧
    vlen (displacement true false false false rot dt) = MOVE_SPEED * dt := by
  constructor
  · have hmv : moveVector true false false true = ((1 : ℝ), (-1 : ℝ)) := by
      simp [moveVector]
    have hlen : vlen ((1 : ℝ), (-1 : ℝ)) = Real.sqrt 2 := by
      unfold vlen
      norm_num
    have hpos : vlen ((1 : ℝ), (-1 : ℝ)) > 0 := by
      rw [hlen]
      exact Real.sqrt_pos.mpr (by norm_num)
    have hbody : displacement true false false true rot dt =
        ((1 / Real.sqrt 2 * Real.cos rot - -1 / Real.sqrt 2 * Real.sin rot) *
            MOVE_SPEED * dt,
         (1 / Real.sqrt 2 * Real.sin rot + -1 / Real.sqrt 2 * Real.cos rot) *
            MOVE_SPEED * dt) := by
      simp only [displacement, hmv, if_pos hpos, hlen]
      rw [if_pos (Real.sqrt_pos.mpr (by norm_num : (0:ℝ) < 2))]
    rw [hbody]
    have h2 : Real.sqrt 2 ^ 2 = 2 := Real.sq_sqrt (by norm_num)
    have hne : Real.sqrt 2 ≠ 0 := by
      intro hc
      rw [hc] at h2
      norm_num at h2
    apply rotate_scale_vlen _ _ rot dt _ hdt
    field_simp
  · have hmv : moveVector true false false false = ((0 : ℝ), (-1 : ℝ)) := by
      simp [moveVector]
    have hlen : vlen ((0 : ℝ), (-1 : ℝ)) = 1 := by
      unfold vlen
      norm_num
    have hpos : vlen ((0 : ℝ), (-1 : ℝ)) > 0 := by
      rw [hlen]
      norm_num
    have hbody : displacement true false false false rot dt =
        ((0 / 1 * Real.cos rot - -1 / 1 * Real.sin rot) * MOVE_SPEED * dt,
         (0 / 1 * Real.sin rot + -1 / 1 * Real.cos rot) * MOVE_SPEED * dt) := by
      simp only [displacement, hmv, if_pos hpos, hlen]
      rw [if_pos (by norm_num : (1:ℝ) > 0)]
    rw [hbody]
    apply rotate_scale_vlen _ _ rot dt _ hdt
    norm_num

/-- Witness for C8 at a concrete heading and tick duration. -/
theorem C8_diagonal_not_faster_witness :
    vlen (displacement true false false true 0 1) = MOVE_SPEED * 1 :=
  (C8_diagonal_not_faster 0 1 (by norm_num)).1

end VoxelWorld
